import Mathlib

/-!
Verification development for the Meeting Intelligence single-page
application.  The application consists of two source files:

* `src/services/geminiService.ts` — `generateMeetingIntelligence`, which
  builds a one-shot request (an instruction text part followed by one
  inline-data part per uploaded file) for a structured-generation service
  and parses the response text as JSON;
* `src/App.tsx` — the session orchestration: file collection
  (`handleFileUpload`), the analysis session (`startAnalysis`) with its
  cosmetic progress interval, and the in-memory report history.

The embedding below translates that code shallowly: JavaScript objects
are association lists of string keys to JSON values, `JSON.parse` is a
concrete recursive-descent JSON parser (`jsonParse`), `String.split` is
`splitChar`, `FileReader.readAsDataURL` is `readAsDataURL` over a real
base64 encoder, and the asynchronous request is an explicit outcome
parameter fed to the `startAnalysis` transition function.
-/

namespace MeetingIntel

/-- JSON values as produced by `JSON.parse`.  Numbers keep their source
token (JavaScript would convert to a double; none of the verified
properties depend on the numeric value, only on parse success and
structure). -/
inductive Json where
  | null : Json
  | bool (b : Bool) : Json
  | num (raw : String) : Json
  | str (s : String) : Json
  | arr (elems : List Json) : Json
  | obj (entries : List (String × Json)) : Json
deriving Repr

/-- Whitespace skipping for JSON: space, tab, line feed, carriage return. -/
def skipWs : List Char → List Char
  | c :: cs => if c = ' ' ∨ c = '\t' ∨ c = '\n' ∨ c = '\r' then skipWs cs else c :: cs
  | [] => []

/-- Matches the expected tail of a literal (`ull`, `rue`, `alse`) and
returns the remaining input. -/
def stripLit : List Char → List Char → Option (List Char)
  | [], cs => some cs
  | l :: ls, c :: cs => if c = l then stripLit ls cs else none
  | _ :: _, [] => none

/-- Value of a hexadecimal digit, if any. -/
def hexVal (c : Char) : Option Nat :=
  if '0' ≤ c ∧ c ≤ '9' then some (c.toNat - '0'.toNat)
  else if 'a' ≤ c ∧ c ≤ 'f' then some (c.toNat - 'a'.toNat + 10)
  else if 'A' ≤ c ∧ c ≤ 'F' then some (c.toNat - 'A'.toNat + 10)
  else none

/-- Longest leading run of decimal digits, with the rest of the input. -/
def takeDigits : List Char → List Char × List Char
  | c :: cs =>
    if c.isDigit then
      let p := takeDigits cs
      (c :: p.1, p.2)
    else ([], c :: cs)
  | [] => ([], [])

/-- Body of a JSON string literal, after the opening quote.  `acc` holds
the decoded characters in reverse.  Raw control characters are rejected,
standard escapes and four-digit unicode escapes are decoded, a closing
quote ends the literal. -/
def parseStr : Nat → List Char → List Char → Option (String × List Char)
  | 0, _, _ => none
  | fuel + 1, acc, cs =>
    match cs with
    | [] => none
    | c :: rest =>
      if c = '"' then some (String.mk acc.reverse, rest)
      else if c = '\\' then
        match rest with
        | [] => none
        | e :: rest2 =>
          if e = '"' then parseStr fuel ('"' :: acc) rest2
          else if e = '\\' then parseStr fuel ('\\' :: acc) rest2
          else if e = '/' then parseStr fuel ('/' :: acc) rest2
          else if e = 'b' then parseStr fuel ('\x08' :: acc) rest2
          else if e = 'f' then parseStr fuel ('\x0c' :: acc) rest2
          else if e = 'n' then parseStr fuel ('\n' :: acc) rest2
          else if e = 'r' then parseStr fuel ('\x0d' :: acc) rest2
          else if e = 't' then parseStr fuel ('\t' :: acc) rest2
          else if e = 'u' then
            match rest2 with
            | h1 :: h2 :: h3 :: h4 :: rest3 =>
              match hexVal h1, hexVal h2, hexVal h3, hexVal h4 with
              | some a, some b, some c2, some d =>
                parseStr fuel (Char.ofNat (a * 4096 + b * 256 + c2 * 16 + d) :: acc) rest3
              | _, _, _, _ => none
            | _ => none
          else none
      else if c.toNat < 32 then none
      else parseStr fuel (c :: acc) rest

/-- Exponent part of a JSON number (optional); `pre` holds the characters
of the number consumed so far. -/
def parseExpPart (pre : List Char) (cs : List Char) : Option (String × List Char) :=
  match cs with
  | c :: rest =>
    if c = 'e' ∨ c = 'E' then
      let p : List Char × List Char :=
        match rest with
        | s :: r2 => if s = '+' ∨ s = '-' then ([s], r2) else ([], s :: r2)
        | [] => ([], [])
      let d := takeDigits p.2
      if d.1 = [] then none else some (String.mk (pre ++ c :: p.1 ++ d.1), d.2)
    else some (String.mk pre, c :: rest)
  | [] => some (String.mk pre, [])

/-- Fractional and exponent parts of a JSON number, after the integer
part `pre`. -/
def afterInt (pre : List Char) (cs : List Char) : Option (String × List Char) :=
  match cs with
  | '.' :: rest =>
    let d := takeDigits rest
    if d.1 = [] then none else parseExpPart (pre ++ '.' :: d.1) d.2
  | _ => parseExpPart pre cs

/-- JSON number token: optional minus, an integer part without leading
zeros, then optional fraction and exponent. -/
def parseNum (cs : List Char) : Option (String × List Char) :=
  let p : List Char × List Char :=
    match cs with
    | '-' :: r => (['-'], r)
    | _ => ([], cs)
  match p.2 with
  | [] => none
  | c :: rest =>
    if c = '0' then afterInt (p.1 ++ ['0']) rest
    else if c.isDigit then
      let d := takeDigits rest
      afterInt (p.1 ++ c :: d.1) d.2
    else none

/-- Updates key `k` of a JavaScript object: replaces the value in place
when the key exists, otherwise appends the binding.  This is the
semantics of property assignment and of a spread-literal override, and
of repeated keys during `JSON.parse`. -/
def objSet : List (String × Json) → String → Json → List (String × Json)
  | [], k, v => [(k, v)]
  | (k', v') :: rest, k, v =>
    if k' = k then (k, v) :: rest else (k', v') :: objSet rest k v

mutual

/-- Recursive-descent JSON value parser (the model of `JSON.parse`),
fuelled to make termination structural. -/
def parseVal : Nat → List Char → Option (Json × List Char)
  | 0, _ => none
  | fuel + 1, cs =>
    match skipWs cs with
    | [] => none
    | c :: rest =>
      if c = 'n' then
        match stripLit ['u', 'l', 'l'] rest with
        | some r => some (Json.null, r)
        | none => none
      else if c = 't' then
        match stripLit ['r', 'u', 'e'] rest with
        | some r => some (Json.bool true, r)
        | none => none
      else if c = 'f' then
        match stripLit ['a', 'l', 's', 'e'] rest with
        | some r => some (Json.bool false, r)
        | none => none
      else if c = '"' then
        match parseStr (rest.length + 1) [] rest with
        | some (s, r) => some (Json.str s, r)
        | none => none
      else if c = '-' ∨ c.isDigit then
        match parseNum (c :: rest) with
        | some (s, r) => some (Json.num s, r)
        | none => none
      else if c = '[' then
        match skipWs rest with
        | ']' :: r => some (Json.arr [], r)
        | _ =>
          match parseArrItems fuel rest with
          | some (xs, r) => some (Json.arr xs, r)
          | none => none
      else if c = '\x7b' then
        match skipWs rest with
        | '\x7d' :: r => some (Json.obj [], r)
        | _ =>
          match parseObjItems fuel [] rest with
          | some (kvs, r) => some (Json.obj kvs, r)
          | none => none
      else none

/-- Elements of a non-empty JSON array, after the opening bracket. -/
def parseArrItems : Nat → List Char → Option (List Json × List Char)
  | 0, _ => none
  | fuel + 1, cs =>
    match parseVal fuel cs with
    | none => none
    | some (v, r1) =>
      match skipWs r1 with
      | ',' :: r2 =>
        match parseArrItems fuel r2 with
        | some (vs, r3) => some (v :: vs, r3)
        | none => none
      | ']' :: r2 => some ([v], r2)
      | _ => none

/-- Members of a non-empty JSON object, after the opening brace.
Repeated keys overwrite in place, as JavaScript property assignment
does. -/
def parseObjItems : Nat → List (String × Json) → List Char → Option (List (String × Json) × List Char)
  | 0, _, _ => none
  | fuel + 1, acc, cs =>
    match skipWs cs with
    | '"' :: rest =>
      match parseStr (rest.length + 1) [] rest with
      | none => none
      | some (k, r1) =>
        match skipWs r1 with
        | ':' :: r2 =>
          match parseVal fuel r2 with
          | none => none
          | some (v, r3) =>
            match skipWs r3 with
            | ',' :: r4 => parseObjItems fuel (objSet acc k v) r4
            | '\x7d' :: r4 => some (objSet acc k v, r4)
            | _ => none
        | _ => none
    | _ => none

end

/-- Model of `JSON.parse`: parse one JSON value and require that only
whitespace follows; `none` models a thrown `SyntaxError`. -/
def jsonParse (s : String) : Option Json :=
  match parseVal (s.length + 1) s.data with
  | some (v, r) => if skipWs r = [] then some v else none
  | none => none

/-! Model of `String.prototype.split` with a single-character separator,
used by the code at `geminiService.ts` line 120 (`data.split(',')`) and
`App.tsx` line 182 (`name.split('.')`). -/

/-- JavaScript `split` on a one-character separator, at the character
level: `splitChar sep cs` is the list of separator-free segments. -/
def splitChar (sep : Char) : List Char → List (List Char)
  | [] => [[]]
  | c :: cs =>
    if c = sep then [] :: splitChar sep cs
    else
      match splitChar sep cs with
      | [] => [[c]]
      | seg :: rest => (c :: seg) :: rest

/-- Transmitted payload of one attachment, from `geminiService.ts` line
120: `file.data.split(',')[1] || file.data` — the segment between the
first and second comma when it is non-empty (JavaScript `||` treats the
empty string as falsy), otherwise the whole input string. -/
def stripData (s : String) : String :=
  match (splitChar ',' s.data).get? 1 with
  | some t => if t = [] then s else String.mk t
  | none => s

/-- One part of the outbound request: the instruction text or an inline
attachment. -/
inductive Part where
  | text (t : String) : Part
  | inlineData (data : String) (mimeType : String) : Part
deriving Repr

/-- File argument of `generateMeetingIntelligence`: a payload string and
a media type. -/
structure GenFile where
  data : String
  mimeType : String
deriving Repr

/-- Instruction text of the request, the template literal at
`geminiService.ts` lines 108–114 with the three text inputs
interpolated. -/
def instruction (notes slides context : String) : String :=
  "Analyze the following meeting materials and provide structured intelligence.\n    \n    Notes: "
    ++ notes
    ++ "\n    Slides Content: " ++ slides
    ++ "\n    Additional Context: " ++ context
    ++ "\n    \n    Return a detailed JSON report according to the schema."

/-- Parts array of the request built by `generateMeetingIntelligence`
(`geminiService.ts` lines 107–124): the instruction text part, then one
inline-data part per file, in order, with the media type copied and the
payload passed through `stripData`. -/
def buildParts (notes slides context : String) (files : List GenFile) : List Part :=
  Part.text (instruction notes slides context)
    :: files.map (fun f => Part.inlineData (stripData f.data) f.mimeType)

/-- Return value of `generateMeetingIntelligence` (`geminiService.ts`
line 135): `JSON.parse(response.text || "\x7b\x7d")`.  The response text
is optional; an absent or empty text falls back to the two-character
object literal, and a parse failure (`none`) models the thrown
`SyntaxError` rejecting the promise. -/
def generateReturn (responseText : Option String) : Option Json :=
  let raw : String :=
    match responseText with
    | none => "\x7b\x7d"
    | some t => if t = "" then "\x7b\x7d" else t
  jsonParse raw

/-- Full model of `generateMeetingIntelligence`: the request parts it
sends, and what it returns (or throws) given the response text. -/
def generateMeetingIntelligence (notes slides context : String) (files : List GenFile)
    (responseText : Option String) : List Part × Option Json :=
  (buildParts notes slides context files, generateReturn responseText)

/-! Model of `App.tsx`: collected files, the report history, the
`handleFileUpload` handler and the `startAnalysis` session transition. -/

/-- Base64 alphabet. -/
def b64Alphabet : List Char :=
  "ABCDEFGHIJKLMNOPQRSTUVWXYZabcdefghijklmnopqrstuvwxyz0123456789+/".data

/-- Character of a six-bit group. -/
def b64Char (n : Nat) : Char := b64Alphabet.getD n 'A'

/-- Standard base64 encoding of a byte list, with `=` padding. -/
def base64Encode : List Nat → List Char
  | [] => []
  | [a] => [b64Char (a / 4 % 64), b64Char (a % 4 * 16), '=', '=']
  | [a, b] => [b64Char (a / 4 % 64), b64Char (a % 4 * 16 + b / 16), b64Char (b % 16 * 4), '=']
  | a :: b :: c :: rest =>
    b64Char (a / 4 % 64) :: b64Char (a % 4 * 16 + b / 16 % 16)
      :: b64Char (b % 16 * 4 + c / 64 % 4) :: b64Char (c % 64) :: base64Encode rest

/-- File offered by a file-selection event: a name, a declared media
type and the raw bytes. -/
structure SelFile where
  name : String
  type : String
  content : List Nat
deriving Repr, DecidableEq

/-- Model of `FileReader.readAsDataURL`: a base64 data URI carrying the
file's declared media type. -/
def readAsDataURL (f : SelFile) : String :=
  "data:" ++ f.type ++ ";base64," ++ String.mk (base64Encode f.content)

/-- Entry of the collected-files state (`App.tsx` line 131): name,
declared type and data-URI payload. -/
structure FileEntry where
  name : String
  type : String
  data : String
deriving Repr, DecidableEq

/-- Wizard step of the session (`App.tsx` line 44). -/
inductive Step where
  | INPUT : Step
  | ANALYZING : Step
  | REPORT : Step
deriving Repr, DecidableEq

/-- Runtime report record: a JavaScript object, i.e. an association
list of keys to JSON values in property-insertion order. -/
abbrev ReportObj := List (String × Json)

/-- Application state relevant to the verified claims (`App.tsx` lines
128–133).  The cosmetic fields `analysisProgress` and
`currentAnalysisStep`, and the presentational `activeTab`, are excluded
as out of scope; the progress interval is tracked by the
`intervalCleared` flag of `SessionResult`. -/
structure AppState where
  step : Step
  notes : String
  context : String
  files : List FileEntry
  report : Option ReportObj
  reportsHistory : List ReportObj

/-- Seed history entry `MOCK_REPORT` (`App.tsx` lines 79–124). -/
def MOCK_REPORT : ReportObj :=
  [ ("id", Json.str "mock-1"),
    ("date", Json.str "Oct 12, 2024"),
    ("title", Json.str "Strategy Sync - Q4 Growth"),
    ("meetingType", Json.str "Strategic Planning"),
    ("confidence", Json.num "98"),
    ("sentiment", Json.str "Positive"),
    ("focusArea", Json.str "Expansion"),
    ("summary", Json.obj
      [ ("overview", Json.str "High-level alignment on Q4 expansion into EMEA markets."),
        ("objective", Json.str "Finalize budget allocation for regional hubs."),
        ("strategicImportance", Json.str "Critical for meeting annual revenue targets."),
        ("criticalDecision", Json.str "Approved $2.4M for Berlin and Dubai offices.") ]),
    ("strategicIntelligence", Json.obj
      [ ("stakeholders", Json.arr
          [ Json.obj [("role", Json.str "CEO"), ("sentiment", Json.str "Champion")],
            Json.obj [("role", Json.str "CFO"), ("sentiment", Json.str "Supportive")],
            Json.obj [("role", Json.str "Head of Sales"), ("sentiment", Json.str "Neutral")] ]),
        ("powerDynamics", Json.str "Strong alignment between executive leadership; sales team requires more incentive clarity."),
        ("incentiveAnalysis", Json.str "Performance bonuses tied to regional launch speed.") ]),
    ("riskIdentification", Json.obj
      [ ("risks", Json.arr
          [ Json.obj [("type", Json.str "Strategic"), ("title", Json.str "Market Saturation"),
                      ("description", Json.str "Competitor X recently launched similar services in Berlin.")],
            Json.obj [("type", Json.str "Political"), ("title", Json.str "Regulatory Hurdles"),
                      ("description", Json.str "New data privacy laws in UAE might delay launch.")] ]),
        ("hiddenObjection", Json.str "The CFO is concerned about the long-term lease commitments in Dubai.") ]),
    ("talkingPoints", Json.obj
      [ ("points", Json.arr
          [ Json.obj [("title", Json.str "Market Opportunity"),
                      ("description", Json.str "EMEA represents a $50B untapped market for our segment.")],
            Json.obj [("title", Json.str "Operational Readiness"),
                      ("description", Json.str "Core team is already identified and ready to relocate.")] ]),
        ("framingStrategy", Json.str "Focus on \"First-Mover Advantage\" to counter cost concerns.") ]),
    ("objections", Json.arr
      [ Json.obj [("question", Json.str "Why Dubai now?"),
                  ("response", Json.str "Strategic gateway to MENA region with favorable tax structures.")] ]),
    ("nextSteps", Json.arr
      [ Json.obj [("action", Json.str "Sign lease agreements"), ("ownership", Json.str "Legal"),
                  ("timeline", Json.str "Oct 20"), ("status", Json.str "PENDING")] ]),
    ("executiveBrief", Json.str "We are moving forward with the EMEA expansion. Budget is approved. Focus is on speed to market. Risks are manageable but require close monitoring of regional regulations."),
    ("coverImagePrompt", Json.str "A futuristic office skyline connecting Berlin and Dubai with glowing digital lines, professional, cinematic lighting.") ]

/-- Initial application state (`App.tsx` lines 128–133): input step,
empty texts, no files, no current report, history seeded with
`MOCK_REPORT`. -/
def initialState : AppState :=
  { step := Step.INPUT, notes := "", context := "", files := [],
    report := none, reportsHistory := [MOCK_REPORT] }

/-- Model of `handleFileUpload` (`App.tsx` lines 144–154): the first
file of the selection, if any, is read as a data URL and appended to
the collected file list; nothing else changes; an empty selection
changes nothing. -/
def handleFileUpload (s : AppState) (selection : List SelFile) : AppState :=
  match selection.head? with
  | none => s
  | some f =>
    { s with files := s.files ++ [{ name := f.name, type := f.type, data := readAsDataURL f }] }

/-- First lookup of a key in a JavaScript object. -/
def objGet (o : ReportObj) (k : String) : Option Json :=
  match o with
  | [] => none
  | (k', v) :: rest => if k' = k then some v else objGet rest k

/-- Own enumerable entries contributed by spreading a JavaScript value
into an object literal: objects contribute their entries, arrays and
strings their indexed elements, primitives nothing. -/
def spreadKVs : Json → ReportObj
  | Json.obj kvs => kvs
  | Json.arr xs => xs.enum.map (fun p => (toString p.1, p.2))
  | Json.str s => s.data.enum.map (fun p => (toString p.1, Json.str (String.mk [p.2])))
  | _ => []

/-- Derived title (`App.tsx` line 182):
`files[0]?.name.split('.')[0] || 'Untitled Session'` — the first
dot-separated segment of the first file's name when the list is
non-empty and that segment is non-empty, else the default. -/
def titleOf (files : List FileEntry) : String :=
  match files.head? with
  | none => "Untitled Session"
  | some f =>
    match splitChar '.' f.name.data with
    | [] => "Untitled Session"
    | seg :: _ => if seg = [] then "Untitled Session" else String.mk seg

/-- Final report record (`App.tsx` lines 178–183): the parsed result's
entries spread into a literal, then the locally generated `id`, `date`
and `title` assigned over them. -/
def mkFinalReport (result : ReportObj) (newId newDate title : String) : ReportObj :=
  objSet (objSet (objSet result "id" (Json.str newId)) "date" (Json.str newDate))
    "title" (Json.str title)

/-- Outcome of the awaited `generateMeetingIntelligence` call: the
promise rejects, or resolves with a response carrying an optional
text. -/
inductive CallOutcome where
  | rejected : CallOutcome
  | resolved (text : Option String) : CallOutcome
deriving Repr

/-- Result of one `startAnalysis` run: the settled state, the request
parts that were issued, and whether the cosmetic progress interval was
cancelled. -/
structure SessionResult where
  state : AppState
  requestParts : List Part
  intervalCleared : Bool

/-- Request parts issued by the session (`App.tsx` line 177): the call
passes `notes`, the literal empty string for slides, `context`, and the
collected files mapped to payload/media-type pairs. -/
def appRequestParts (s : AppState) : List Part :=
  buildParts s.notes "" s.context (s.files.map (fun f => { data := f.data, mimeType := f.type }))

/-- Model of `startAnalysis` (`App.tsx` lines 156–196).  On a rejected
call, or when `JSON.parse` throws on the response text, the `catch`
block returns the step to `INPUT` and touches nothing else.  On
success the final report is stored and prepended to the history, and
the step becomes `REPORT` (the one-second `setTimeout` is modelled as
having fired).  The `finally` block clears the progress interval on
every path. -/
def startAnalysis (s : AppState) (outcome : CallOutcome) (newId newDate : String) :
    SessionResult :=
  let parts := appRequestParts s
  match outcome with
  | CallOutcome.rejected =>
    { state := { s with step := Step.INPUT }, requestParts := parts, intervalCleared := true }
  | CallOutcome.resolved t =>
    match generateReturn t with
    | none =>
      { state := { s with step := Step.INPUT }, requestParts := parts, intervalCleared := true }
    | some j =>
      let finalReport := mkFinalReport (spreadKVs j) newId newDate (titleOf s.files)
      { state := { s with step := Step.REPORT, report := some finalReport,
                          reportsHistory := finalReport :: s.reportsHistory },
        requestParts := parts, intervalCleared := true }

/-- Inputs of one analysis session: the response text of the resolved
call and the locally generated id and date. -/
structure SessionInput where
  text : Option String
  newId : String
  newDate : String
deriving Repr, DecidableEq

/-- Runs a sequence of resolved analysis sessions from a state. -/
def runSessions (s : AppState) (xs : List SessionInput) : AppState :=
  xs.foldl (fun st x => (startAnalysis st (CallOutcome.resolved x.text) x.newId x.newDate).state) s

/-- Report produced by one successful session started from state `s`
(whose collected files determine the title). -/
def sessionReport (s : AppState) (x : SessionInput) : ReportObj :=
  mkFinalReport (spreadKVs ((generateReturn x.text).getD (Json.obj []))) x.newId x.newDate
    (titleOf s.files)

/-- Title as the specification words it — the first uploaded file's
base name, "its name with the extension removed": everything before the
last dot, or the whole name when it has no dot.  Stated only to compare
against the implementation's `titleOf`. -/
def specBaseName (s : String) : String :=
  match splitChar '.' s.data with
  | [] => s
  | [_] => s
  | segs => String.mk (List.intercalate ['.'] segs.dropLast)

/-! Helper lemmas. -/

/-- Lookup after a JavaScript property assignment: the assigned key
reads back the new value, every other key is unaffected. -/
theorem objGet_objSet (o : ReportObj) (k q : String) (v : Json) :
    objGet (objSet o k v) q = if q = k then some v else objGet o q := by
  induction o with
  | nil =>
    by_cases h : k = q
    · simp [objSet, objGet, h]
    · simp [objSet, objGet, h, Ne.symm h]
  | cons hd tl ih =>
    obtain ⟨k2, v2⟩ := hd
    by_cases h1 : k2 = k
    · subst h1
      by_cases h2 : k2 = q
      · simp [objSet, objGet, h2]
      · simp [objSet, objGet, h2, Ne.symm h2]
    · by_cases h2 : k2 = q
      · subst h2
        simp [objSet, objGet, h1, Ne.symm h1]
      · simp [objSet, objGet, h1, h2, ih]

/-- JavaScript `split` on an input free of the separator returns the
input as the only segment. -/
theorem splitChar_of_not_mem (sep : Char) (cs : List Char) (h : sep ∉ cs) :
    splitChar sep cs = [cs] := by
  induction cs with
  | nil => rfl
  | cons c cs ih =>
    have hc : ¬ c = sep := fun hcs => h (by simp [hcs])
    have hm : sep ∉ cs := fun hcs => h (by simp [hcs])
    simp [splitChar, hc, ih hm]

/-- JavaScript `split` at the first separator occurrence: the
separator-free part before it becomes the first segment. -/
theorem splitChar_append (sep : Char) (p q : List Char) (hp : sep ∉ p) :
    splitChar sep (p ++ sep :: q) = p :: splitChar sep q := by
  induction p with
  | nil => simp [splitChar]
  | cons c p ih =>
    have hc : ¬ c = sep := fun hcs => hp (by simp [hcs])
    have hm : sep ∉ p := fun hcs => hp (by simp [hcs])
    simp [splitChar, hc, ih hm]

/-- Non-empty strings have positive length. -/
theorem length_ne_zero_of_ne_empty (s : String) (h : s ≠ "") : s.length ≠ 0 := by
  obtain ⟨cs⟩ := s
  cases cs with
  | nil => exact absurd rfl h
  | cons c cs => simp [String.length]

/-- Runs of resolved-and-parsed sessions: the history accumulates one
report per session in front, and the collected files never change. -/
theorem runSessions_spec (xs : List SessionInput) (s : AppState)
    (h : ∀ x ∈ xs, (generateReturn x.text).isSome = true) :
    (runSessions s xs).reportsHistory
        = (xs.map (sessionReport s)).reverse ++ s.reportsHistory
    ∧ (runSessions s xs).files = s.files := by
  induction xs generalizing s with
  | nil => simp [runSessions]
  | cons x xs ih =>
    have hx : (generateReturn x.text).isSome = true := h x (by simp)
    obtain ⟨j, hj⟩ := Option.isSome_iff_exists.mp hx
    have hstep :
        (startAnalysis s (CallOutcome.resolved x.text) x.newId x.newDate).state
          = { s with step := Step.REPORT,
                     report := some (sessionReport s x),
                     reportsHistory := sessionReport s x :: s.reportsHistory } := by
      simp [startAnalysis, hj, sessionReport]
    have hrun : runSessions s (x :: xs)
        = runSessions { s with step := Step.REPORT,
                               report := some (sessionReport s x),
                               reportsHistory := sessionReport s x :: s.reportsHistory } xs := by
      simp [runSessions, hstep]
    have ih' := ih { s with step := Step.REPORT,
                            report := some (sessionReport s x),
                            reportsHistory := sessionReport s x :: s.reportsHistory }
      (fun y hy => h y (by simp [hy]))
    have hsr : sessionReport { s with step := Step.REPORT,
                                      report := some (sessionReport s x),
                                      reportsHistory := sessionReport s x :: s.reportsHistory }
        = sessionReport s := by
      funext y
      simp [sessionReport]
    constructor
    · rw [hrun, ih'.1, hsr]
      simp [List.append_assoc]
    · rw [hrun, ih'.2]

/-! Claim theorems. -/

/-- C1 (counterexample): the claim that every attachment's data-URI
prefix is stripped before transmission fails at a concrete input.  For
the data URI of an empty file, `"data:text/plain;base64,"`, the segment
after the comma is empty, JavaScript `||` treats it as falsy, and the
whole string — prefix included — is transmitted as the attachment
payload. -/
theorem C1_strip_counterexample :
    stripData "data:text/plain;base64," = "data:text/plain;base64,"
    ∧ (buildParts "n" "" "c" [{ data := "data:text/plain;base64,", mimeType := "text/plain" }]).get? 1
        = some (Part.inlineData "data:text/plain;base64," "text/plain")
    ∧ (stripData "data:text/plain;base64,").data.take 5 = "data:".data
    ∧ "data:text/plain;base64," ≠ "" :=
  ⟨rfl, rfl, by decide, by decide⟩

/-- C1 (amended): the request parts of `generateMeetingIntelligence`
are exactly one instruction text part embedding the three text inputs,
followed by one inline attachment per file in file order with its
media type preserved; the attachment payload is the segment of the
input between the first and second comma, so for a data URI whose
post-comma payload is non-empty (in particular every non-empty base64
data URI) the data-URI prefix is stripped. -/
theorem C1_request_shape_and_strip :
    (∀ (notes slides context : String) (files : List GenFile),
      (buildParts notes slides context files).length = files.length + 1
      ∧ (buildParts notes slides context files).head?
          = some (Part.text (instruction notes slides context))
      ∧ ∀ i : Nat, (buildParts notes slides context files).get? (i + 1)
          = (files.get? i).map (fun f => Part.inlineData (stripData f.data) f.mimeType))
    ∧ ∀ (p d : List Char), ',' ∉ p → ',' ∉ d → d ≠ [] →
        stripData (String.mk (p ++ ',' :: d)) = String.mk d := by
  constructor
  · intro notes slides context files
    refine ⟨by simp [buildParts], rfl, ?_⟩
    intro i
    simp [buildParts]
  · intro p d hp hd hne
    have h1 : splitChar ',' (p ++ ',' :: d) = p :: splitChar ',' d := splitChar_append ',' p d hp
    have h2 : splitChar ',' d = [d] := splitChar_of_not_mem ',' d hd
    simp [stripData, h1, h2, hne]

/-- C1 (witness): the stripping clause applied to the one-byte data URI
with prefix `a` and payload `b`. -/
theorem C1_strip_witness :
    stripData (String.mk (['a'] ++ ',' :: ['b'])) = String.mk ['b'] :=
  C1_request_shape_and_strip.2 ['a'] ['b'] (by decide) (by decide) (by decide)

/-- C2 (counterexample): a response text that is non-empty and not
valid JSON does not produce an empty object — `JSON.parse` throws, so
`generateMeetingIntelligence` propagates an error (`none` in the
model) instead of returning `\x7b\x7d`-parsed emptiness. -/
theorem C2_parse_failure_counterexample :
    generateReturn (some "not json") = none
    ∧ generateReturn (some "not json") ≠ some (Json.obj []) := by
  refine ⟨rfl, ?_⟩
  intro h
  rw [show generateReturn (some "not json") = none from rfl] at h
  exact Option.noConfusion h

/-- C2 (amended): only a response whose text is absent or empty yields
the empty object, through the `"\x7b\x7d"` fallback of
`response.text || "\x7b\x7d"`; for any non-empty text the result is
exactly `JSON.parse` of that text, so an unparsable non-empty text
raises a parse error rather than degrading to an empty object. -/
theorem C2_empty_fallback :
    generateReturn none = some (Json.obj [])
    ∧ generateReturn (some "") = some (Json.obj [])
    ∧ ∀ t : String, t ≠ "" → generateReturn (some t) = jsonParse t := by
  refine ⟨rfl, rfl, ?_⟩
  intro t ht
  simp [generateReturn, ht]

/-- C2 (witness): the non-empty-text clause applied to the unparsable
text `not json`. -/
theorem C2_empty_fallback_witness :
    generateReturn (some "not json") = jsonParse "not json" :=
  C2_empty_fallback.2.2 "not json" (by decide)

/-- C3: the stored report record agrees with the parsed response value
on every key except `id`, `date` and `title`, which always read back
the locally generated values regardless of what the response carried
for them; and the report stored by a successful session is exactly this
merge of the parsed value with the local identity fields. -/
theorem C3_report_fields_exact :
    (∀ (result : ReportObj) (i d t k : String),
      objGet (mkFinalReport result i d t) k =
        if k = "title" then some (Json.str t)
        else if k = "date" then some (Json.str d)
        else if k = "id" then some (Json.str i)
        else objGet result k)
    ∧ ∀ (s : AppState) (t : Option String) (i d : String) (j : Json),
        generateReturn t = some j →
        (startAnalysis s (CallOutcome.resolved t) i d).state.report
          = some (mkFinalReport (spreadKVs j) i d (titleOf s.files)) := by
  constructor
  · intro result i d t k
    simp only [mkFinalReport, objGet_objSet]
  · intro s t i d j hj
    simp [startAnalysis, hj]

/-- C3 (witness): the storage clause applied to a concrete
schema-shaped response carrying its own `id`, `date` and `title`. -/
theorem C3_report_fields_witness :
    (startAnalysis initialState
        (CallOutcome.resolved
          (some "\x7b\"meetingType\":\"Board\",\"id\":\"fromService\",\"title\":\"fromService\"\x7d"))
        "localId" "localDate").state.report
      = some (mkFinalReport
          (spreadKVs (Json.obj
            [("meetingType", Json.str "Board"), ("id", Json.str "fromService"),
             ("title", Json.str "fromService")]))
          "localId" "localDate" (titleOf initialState.files)) :=
  C3_report_fields_exact.2 initialState
    (some "\x7b\"meetingType\":\"Board\",\"id\":\"fromService\",\"title\":\"fromService\"\x7d")
    "localId" "localDate"
    (Json.obj [("meetingType", Json.str "Board"), ("id", Json.str "fromService"),
               ("title", Json.str "fromService")]) rfl

/-- C4 (counterexample): after a rejected call the session does return
to the input step, but the accumulated input is NOT discarded — the
collected file, the notes text and the context text all survive the
failure, refuting the claim that all accumulated input is discarded. -/
theorem C4_failure_keeps_input_counterexample :
    (startAnalysis
        { step := Step.INPUT, notes := "Budget review", context := "extra context",
          files := [{ name := "a.txt", type := "text/plain", data := "data:text/plain;base64,QQ==" }],
          report := none, reportsHistory := [MOCK_REPORT] }
        CallOutcome.rejected "i1" "d1").state.step = Step.INPUT
    ∧ (startAnalysis
        { step := Step.INPUT, notes := "Budget review", context := "extra context",
          files := [{ name := "a.txt", type := "text/plain", data := "data:text/plain;base64,QQ==" }],
          report := none, reportsHistory := [MOCK_REPORT] }
        CallOutcome.rejected "i1" "d1").state.files ≠ []
    ∧ (startAnalysis
        { step := Step.INPUT, notes := "Budget review", context := "extra context",
          files := [{ name := "a.txt", type := "text/plain", data := "data:text/plain;base64,QQ==" }],
          report := none, reportsHistory := [MOCK_REPORT] }
        CallOutcome.rejected "i1" "d1").state.notes = "Budget review"
    ∧ (startAnalysis
        { step := Step.INPUT, notes := "Budget review", context := "extra context",
          files := [{ name := "a.txt", type := "text/plain", data := "data:text/plain;base64,QQ==" }],
          report := none, reportsHistory := [MOCK_REPORT] }
        CallOutcome.rejected "i1" "d1").state.context = "extra context" :=
  ⟨rfl, by decide, rfl, rfl⟩

/-- C4 (amended): on every failure of the outbound call the session
returns to the input step, while the collected files, the notes text,
the context text, the displayed report and the history are all
retained unchanged — the `catch` block only resets the step. -/
theorem C4_failure_returns_to_input :
    ∀ (s : AppState) (i d : String),
      (startAnalysis s CallOutcome.rejected i d).state.step = Step.INPUT
      ∧ (startAnalysis s CallOutcome.rejected i d).state.files = s.files
      ∧ (startAnalysis s CallOutcome.rejected i d).state.notes = s.notes
      ∧ (startAnalysis s CallOutcome.rejected i d).state.context = s.context
      ∧ (startAnalysis s CallOutcome.rejected i d).state.report = s.report
      ∧ (startAnalysis s CallOutcome.rejected i d).state.reportsHistory = s.reportsHistory :=
  fun _ _ _ => ⟨rfl, rfl, rfl, rfl, rfl, rfl⟩

/-- C5: after N successful sessions the history is the N produced
reports, most recent first, followed by the seed `MOCK_REPORT`, hence
of length N + 1; each successful session prepends exactly one report,
and neither a failed call, a parse failure nor a file upload removes or
changes any history entry. -/
theorem C5_history_reverse_chronological :
    (∀ xs : List SessionInput, (∀ x ∈ xs, (generateReturn x.text).isSome = true) →
      (runSessions initialState xs).reportsHistory
          = (xs.map (sessionReport initialState)).reverse ++ [MOCK_REPORT]
      ∧ (runSessions initialState xs).reportsHistory.length = xs.length + 1)
    ∧ (∀ (s : AppState) (x : SessionInput) (j : Json), generateReturn x.text = some j →
        (startAnalysis s (CallOutcome.resolved x.text) x.newId x.newDate).state.reportsHistory
          = sessionReport s x :: s.reportsHistory)
    ∧ (∀ (s : AppState) (i d : String),
        (startAnalysis s CallOutcome.rejected i d).state.reportsHistory = s.reportsHistory)
    ∧ (∀ (s : AppState) (t : Option String) (i d : String), generateReturn t = none →
        (startAnalysis s (CallOutcome.resolved t) i d).state.reportsHistory = s.reportsHistory)
    ∧ (∀ (s : AppState) (sel : List SelFile),
        (handleFileUpload s sel).reportsHistory = s.reportsHistory) := by
  refine ⟨?_, ?_, ?_, ?_, ?_⟩
  · intro xs h
    have hmain := (runSessions_spec xs initialState h).1
    refine ⟨hmain, ?_⟩
    rw [hmain]
    simp [initialState]
  · intro s x j hj
    simp [startAnalysis, hj, sessionReport]
  · intro s i d
    rfl
  · intro s t i d ht
    simp [startAnalysis, ht]
  · intro s sel
    cases sel with
    | nil => rfl
    | cons f rest => rfl

/-- C5 (witness): one successful session on a valid empty-object
response prepends its report in front of the seed entry. -/
theorem C5_history_witness :
    (runSessions initialState [{ text := some "\x7b\x7d", newId := "i1", newDate := "d1" }]).reportsHistory
        = ([{ text := some "\x7b\x7d", newId := "i1", newDate := "d1" }].map
            (sessionReport initialState)).reverse ++ [MOCK_REPORT]
    ∧ (runSessions initialState
          [{ text := some "\x7b\x7d", newId := "i1", newDate := "d1" }]).reportsHistory.length
        = 1 + 1 :=
  C5_history_reverse_chronological.1
    [{ text := some "\x7b\x7d", newId := "i1", newDate := "d1" }] (by decide)

/-- C6: for a response text that is not valid JSON the session never
lets the exception escape `startAnalysis` — the transition is total and
lands either in the generic failure state (step back to `INPUT`,
nothing else touched) or, for the falsy-text fallback, in a success
state whose stored report has every field absent except the locally
generated `id`, `date` and `title`. -/
theorem C6_invalid_json_handled :
    (∀ (s : AppState) (t : String) (i d : String), jsonParse t = none →
      (startAnalysis s (CallOutcome.resolved (some t)) i d).state = { s with step := Step.INPUT }
      ∨ (startAnalysis s (CallOutcome.resolved (some t)) i d).state.report
          = some (mkFinalReport [] i d (titleOf s.files)))
    ∧ ∀ (i d ttl k : String), k ≠ "id" → k ≠ "date" → k ≠ "title" →
        objGet (mkFinalReport [] i d ttl) k = none := by
  constructor
  · intro s t i d ht
    by_cases he : t = ""
    · subst he
      exact Or.inr rfl
    · left
      have : generateReturn (some t) = none := by simp [generateReturn, he, ht]
      simp [startAnalysis, this]
  · intro i d ttl k h1 h2 h3
    simp [mkFinalReport, objSet, objGet, Ne.symm h1, Ne.symm h2, Ne.symm h3]

/-- C6 (witness): the handling clause applied to the unparsable text
`oops` from the initial state, and the empty-fields clause at the
schema key `meetingType`. -/
theorem C6_invalid_json_witness :
    ((startAnalysis initialState (CallOutcome.resolved (some "oops")) "i" "d").state
        = { initialState with step := Step.INPUT }
      ∨ (startAnalysis initialState (CallOutcome.resolved (some "oops")) "i" "d").state.report
          = some (mkFinalReport [] "i" "d" (titleOf initialState.files)))
    ∧ objGet (mkFinalReport [] "i" "d" "T") "meetingType" = none :=
  ⟨C6_invalid_json_handled.1 initialState "oops" "i" "d" rfl,
   C6_invalid_json_handled.2 "i" "d" "T" "meetingType" (by decide) (by decide) (by decide)⟩

/-- C7 (counterexample): for a first file named `archive.tar.gz` the
stored title is `archive` — the prefix before the FIRST dot — while the
file's name with the extension removed is `archive.tar`, so the claim
that the title equals the base name fails. -/
theorem C7_title_counterexample :
    titleOf [{ name := "archive.tar.gz", type := "application/gzip", data := "d" }] = "archive"
    ∧ specBaseName "archive.tar.gz" = "archive.tar"
    ∧ ("archive" : String) ≠ "archive.tar"
    ∧ (startAnalysis
          { initialState with
              files := [{ name := "archive.tar.gz", type := "application/gzip", data := "d" }] }
          (CallOutcome.resolved (some "\x7b\x7d")) "i" "d").state.report
        = some (mkFinalReport [] "i" "d" "archive") :=
  ⟨rfl, by decide, by decide, rfl⟩

/-- C7 (amended): the stored title is the portion of the first uploaded
file's name before its first dot whenever that portion is non-empty —
the name itself when it contains no dot — and the default
`Untitled Session` when no file was uploaded (the portion being empty
also falls back to the default via JavaScript `||`). -/
theorem C7_title_first_segment :
    titleOf [] = "Untitled Session"
    ∧ (∀ (f : FileEntry) (rest : List FileEntry), '.' ∉ f.name.data → f.name ≠ "" →
        titleOf (f :: rest) = f.name)
    ∧ ∀ (f : FileEntry) (rest : List FileEntry) (p q : List Char),
        f.name.data = p ++ '.' :: q → '.' ∉ p → p ≠ [] →
        titleOf (f :: rest) = String.mk p := by
  refine ⟨rfl, ?_, ?_⟩
  · intro f rest hdot hne
    have hsplit : splitChar '.' f.name.data = [f.name.data] :=
      splitChar_of_not_mem '.' f.name.data hdot
    have hdata : f.name.data ≠ [] := by
      intro hnil
      apply hne
      have hmk : f.name = String.mk f.name.data := rfl
      rw [hmk, hnil]
    simp [titleOf, hsplit, hdata]
  · intro f rest p q hname hp hpne
    have hsplit : splitChar '.' f.name.data = p :: splitChar '.' q := by
      rw [hname]
      exact splitChar_append '.' p q hp
    simp [titleOf, hsplit, hpne]

/-- C7 (witness): the first-segment clause applied to a file named
`a.b`. -/
theorem C7_title_witness :
    titleOf [{ name := "a.b", type := "t", data := "d" }] = String.mk ['a'] :=
  C7_title_first_segment.2.2 { name := "a.b", type := "t", data := "d" } [] ['a'] ['b']
    (by decide) (by decide) (by decide)

/-- C8: whichever way the outbound call settles — rejection, a response
whose text fails to parse, or success — the `finally` block cancels the
cosmetic progress interval, so the timer is always stopped when
`startAnalysis` settles. -/
theorem C8_interval_always_cleared :
    ∀ (s : AppState) (oc : CallOutcome) (i d : String),
      (startAnalysis s oc i d).intervalCleared = true := by
  intro s oc i d
  cases oc with
  | rejected => rfl
  | resolved t =>
    simp only [startAnalysis]
    cases generateReturn t <;> rfl

/-- C9: every request the application issues passes the literal empty
string as the slides argument: the issued parts are exactly those built
from `(notes, "", context, files)`, the instruction part embeds an
empty slides section, and no instruction with a non-empty slides text
can be the instruction part of an issued request. -/
theorem C9_slides_argument_empty :
    ∀ (s : AppState) (oc : CallOutcome) (i d : String),
      (startAnalysis s oc i d).requestParts
          = buildParts s.notes "" s.context
              (s.files.map (fun f => { data := f.data, mimeType := f.type }))
      ∧ (startAnalysis s oc i d).requestParts.head?
          = some (Part.text (instruction s.notes "" s.context))
      ∧ ∀ sl : String, sl ≠ "" →
          (startAnalysis s oc i d).requestParts.head?
            ≠ some (Part.text (instruction s.notes sl s.context)) := by
  intro s oc i d
  have hparts : (startAnalysis s oc i d).requestParts = appRequestParts s := by
    cases oc with
    | rejected => rfl
    | resolved t =>
      simp only [startAnalysis]
      cases generateReturn t <;> rfl
  refine ⟨hparts, by rw [hparts]; rfl, ?_⟩
  intro sl hsl h
  rw [hparts] at h
  have hinstr : instruction s.notes "" s.context = instruction s.notes sl s.context := by
    have := h
    simp only [appRequestParts, buildParts, List.head?] at this
    exact Part.text.inj (Option.some.inj this)
  have hlen := congrArg String.length hinstr
  simp [instruction, String.length_append] at hlen
  exact length_ne_zero_of_ne_empty sl hsl hlen

/-- C9 (witness): no issued request's instruction part carries the
non-empty slides text `x`. -/
theorem C9_slides_witness :
    (startAnalysis initialState CallOutcome.rejected "i" "d").requestParts.head?
      ≠ some (Part.text (instruction initialState.notes "x" initialState.context)) :=
  (C9_slides_argument_empty initialState CallOutcome.rejected "i" "d").2.2 "x" (by decide)

/-- C10: a file-selection event with at least one file appends exactly
the first selected file — name, declared type, and base64 data-URI
payload — at the end of the collected list, preserving every previously
collected file and leaving notes, context, history, report and step
unchanged; an empty selection changes nothing at all. -/
theorem C10_file_upload_appends :
    (∀ s : AppState, handleFileUpload s [] = s)
    ∧ ∀ (s : AppState) (f : SelFile) (rest : List SelFile),
        (handleFileUpload s (f :: rest)).files
            = s.files ++ [{ name := f.name, type := f.type, data := readAsDataURL f }]
        ∧ (handleFileUpload s (f :: rest)).files.take s.files.length = s.files
        ∧ (handleFileUpload s (f :: rest)).files.length = s.files.length + 1
        ∧ (handleFileUpload s (f :: rest)).notes = s.notes
        ∧ (handleFileUpload s (f :: rest)).context = s.context
        ∧ (handleFileUpload s (f :: rest)).reportsHistory = s.reportsHistory
        ∧ (handleFileUpload s (f :: rest)).report = s.report
        ∧ (handleFileUpload s (f :: rest)).step = s.step := by
  refine ⟨fun s => rfl, ?_⟩
  intro s f rest
  refine ⟨rfl, ?_, by simp [handleFileUpload], rfl, rfl, rfl, rfl, rfl⟩
  simp [handleFileUpload, List.take_left]

end MeetingIntel
